import Mathlib

/-!
# SPSCAtomic: a heap-allocated atomic `int64_t` cell

A shallow embedding of `src/ios/SPSCAtomic.c`.

* `int64_t` values are integers; the wraparound of `atomic_fetch_add_explicit`
  on a signed atomic object is computed on the 64-bit patterns, with an
  explicit reduction modulo `2^64`.
* The C heap is a list of blocks; a pointer is `none` (`NULL`) or an index
  into that list.  Using a pointer that does not designate a live object is
  undefined behaviour, which the embedding reports as `none`.
* The libc functions `malloc` and `free` and the `<stdatomic.h>` generics are
  given as definitions of their own, and the seven functions of the file are
  translated on top of them, one definition per C function, same names.
* On the heap every atomic operation is one indivisible step, and the
  `memory_order` argument, carried through, has no effect on the value
  computed by a single step.
* The ordering between two threads is the subject of a second embedding of
  the load and store functions (namespace `Threads`), over a memory of
  timestamped writes and per-thread views, in which the `memory_order`
  argument decides what a store publishes and what a load acquires.
-/

namespace SPSCAtomic

/-! ## 64-bit signed integers -/

/-- The number of bit patterns of an `int64_t`, two to the power 64. -/
def TWO64 : Int := 18446744073709551616

/-- Largest `int64_t`. -/
def INT64_MAX : Int := 9223372036854775807

/-- Smallest `int64_t`. -/
def INT64_MIN : Int := -9223372036854775808

/-- The integer is representable as an `int64_t`. -/
def isInt64 (x : Int) : Prop := INT64_MIN ≤ x ∧ x ≤ INT64_MAX

instance (x : Int) : Decidable (isInt64 x) := by
  unfold isInt64; exact inferInstance

/-- The 64-bit pattern of an integer, read as an unsigned number. -/
def toBits (x : Int) : Int := x % TWO64

/-- The `int64_t` whose two's-complement bit pattern is the unsigned number `u`. -/
def ofBits (u : Int) : Int := if u ≤ INT64_MAX then u else u - TWO64

/-- Addition of two `int64_t` as the hardware does it: add the bit patterns,
keep the low 64 bits, read the result as a signed number. -/
def wrappingAdd (x y : Int) : Int := ofBits ((toBits x + toBits y) % TWO64)

/-- An integer reduced modulo `2^64` and reinterpreted as an `int64_t`. -/
def wrapInt64 (x : Int) : Int := ofBits (x % TWO64)

/-! ## Heap -/

/-- The `memory_order` enumeration of `<stdatomic.h>`. -/
inductive memory_order
  | memory_order_relaxed
  | memory_order_consume
  | memory_order_acquire
  | memory_order_release
  | memory_order_acq_rel
  | memory_order_seq_cst
  deriving DecidableEq, Repr

/-- The C struct `spsc_atomic_i64`: one field, `_Atomic int64_t value`. -/
structure spsc_atomic_i64 where
  value : Int
  deriving DecidableEq, Repr

/-- One heap block of `sizeof(spsc_atomic_i64)` bytes: storage returned by
`malloc` whose atomic object is not initialised yet (`raw`), a live object
(`obj`), or storage given back by `free` (`freed`). -/
inductive Block
  | raw
  | obj (c : spsc_atomic_i64)
  | freed
  deriving DecidableEq, Repr

/-- The heap: block `i` is the storage designated by address `i`. -/
abbrev Heap := List Block

/-- A `spsc_atomic_i64*`: `none` is `NULL`. -/
abbrev Ptr := Option Nat

/-- The libc `malloc`.  Whether storage is available is an input (`avail`);
on success a new block with indeterminate contents is returned, on failure
`NULL` is returned and the heap is untouched. -/
def malloc (avail : Bool) (h : Heap) : Ptr × Heap :=
  if avail then (some h.length, h ++ [Block.raw]) else (none, h)

/-- The libc `free`: nothing happens for `NULL`; a block obtained from
`malloc` is released; anything else is undefined behaviour. -/
def free (h : Heap) (p : Ptr) : Option Heap :=
  match p with
  | none => some h
  | some a =>
    match h[a]? with
    | some Block.raw => some (h.set a Block.freed)
    | some (Block.obj _) => some (h.set a Block.freed)
    | _ => none

/-- The generic `atomic_init(&a->value, v)` on allocated storage. -/
def atomic_init (h : Heap) (a : Nat) (v : Int) : Heap :=
  h.set a (Block.obj ⟨v⟩)

/-- The generic `atomic_load_explicit(&a->value, order)`. -/
def atomic_load_explicit (h : Heap) (p : Ptr) (_order : memory_order) :
    Option (Int × Heap) :=
  match p with
  | none => none
  | some a =>
    match h[a]? with
    | some (Block.obj c) => some (c.value, h)
    | _ => none

/-- The generic `atomic_store_explicit(&a->value, v, order)`. -/
def atomic_store_explicit (h : Heap) (p : Ptr) (v : Int) (_order : memory_order) :
    Option Heap :=
  match p with
  | none => none
  | some a =>
    match h[a]? with
    | some (Block.obj _) => some (h.set a (Block.obj ⟨v⟩))
    | _ => none

/-- The generic `atomic_fetch_add_explicit(&a->value, delta, order)`: for a
signed atomic integer the addition wraps silently in two's complement. -/
def atomic_fetch_add_explicit (h : Heap) (p : Ptr) (delta : Int)
    (_order : memory_order) : Option (Int × Heap) :=
  match p with
  | none => none
  | some a =>
    match h[a]? with
    | some (Block.obj c) =>
      some (c.value, h.set a (Block.obj ⟨wrappingAdd c.value delta⟩))
    | _ => none

/-! ## The functions of `SPSCAtomic.c` -/

/-- `spsc_atomic_i64* spsc_atomic_i64_create(int64_t initial)`. -/
def spsc_atomic_i64_create (avail : Bool) (h : Heap) (initial : Int) : Ptr × Heap :=
  match malloc avail h with
  | (none, h1) => (none, h1)
  | (some a, h1) => (some a, atomic_init h1 a initial)

/-- `void spsc_atomic_i64_destroy(spsc_atomic_i64* a)`. -/
def spsc_atomic_i64_destroy (h : Heap) (a : Ptr) : Option Heap :=
  free h a

/-- `int64_t spsc_load_acquire_i64(spsc_atomic_i64* a)`. -/
def spsc_load_acquire_i64 (h : Heap) (a : Ptr) : Option (Int × Heap) :=
  atomic_load_explicit h a memory_order.memory_order_acquire

/-- `int64_t spsc_load_relaxed_i64(spsc_atomic_i64* a)`. -/
def spsc_load_relaxed_i64 (h : Heap) (a : Ptr) : Option (Int × Heap) :=
  atomic_load_explicit h a memory_order.memory_order_relaxed

/-- `void spsc_store_release_i64(spsc_atomic_i64* a, int64_t v)`. -/
def spsc_store_release_i64 (h : Heap) (a : Ptr) (v : Int) : Option Heap :=
  atomic_store_explicit h a v memory_order.memory_order_release

/-- `void spsc_store_relaxed_i64(spsc_atomic_i64* a, int64_t v)`. -/
def spsc_store_relaxed_i64 (h : Heap) (a : Ptr) (v : Int) : Option Heap :=
  atomic_store_explicit h a v memory_order.memory_order_relaxed

/-- `int64_t spsc_fetch_add_relaxed_i64(spsc_atomic_i64* a, int64_t delta)`. -/
def spsc_fetch_add_relaxed_i64 (h : Heap) (a : Ptr) (delta : Int) :
    Option (Int × Heap) :=
  atomic_fetch_add_explicit h a delta memory_order.memory_order_relaxed

/-! ## Sequences of calls on one cell -/

/-- One call of an operation of the header on a given cell. -/
inductive Call
  | load_acquire
  | load_relaxed
  | store_release (v : Int)
  | store_relaxed (v : Int)
  | fetch_add_relaxed (delta : Int)
  deriving DecidableEq, Repr

/-- The call is one of the two loads. -/
def Call.isLoad : Call → Bool
  | Call.load_acquire => true
  | Call.load_relaxed => true
  | _ => false

/-- Perform one call: the returned value (`none` for a `void` function) and
the heap afterwards. -/
def Call.invoke (h : Heap) (a : Ptr) : Call → Option (Option Int × Heap)
  | Call.load_acquire => (spsc_load_acquire_i64 h a).map (fun r => (some r.1, r.2))
  | Call.load_relaxed => (spsc_load_relaxed_i64 h a).map (fun r => (some r.1, r.2))
  | Call.store_release v => (spsc_store_release_i64 h a v).map (fun h1 => (none, h1))
  | Call.store_relaxed v => (spsc_store_relaxed_i64 h a v).map (fun h1 => (none, h1))
  | Call.fetch_add_relaxed d =>
    (spsc_fetch_add_relaxed_i64 h a d).map (fun r => (some r.1, r.2))

/-- Perform the calls in order on the cell `a`; the result is the log of
each call with what it returned, and the final heap. -/
def run (h : Heap) (a : Ptr) : List Call → Option (List (Call × Option Int) × Heap)
  | [] => some ([], h)
  | c :: cs =>
    match c.invoke h a with
    | none => none
    | some (r, h1) =>
      match run h1 a cs with
      | none => none
      | some (log, h2) => some ((c, r) :: log, h2)

/-- The values returned by the calls of a log, in order. -/
def returned (log : List (Call × Option Int)) : List Int :=
  log.filterMap (fun e => e.2)

/-- The value a logged call wrote into the cell, if it is a write: the
argument of a store, or old plus delta (wrapped) for a fetch-add that
returned old. -/
def writtenBy : Call × Option Int → Option Int
  | (Call.store_release v, _) => some v
  | (Call.store_relaxed v, _) => some v
  | (Call.fetch_add_relaxed d, some old) => some (wrapInt64 (old + d))
  | _ => none

/-- All values written by the calls of a log. -/
def written (log : List (Call × Option Int)) : List Int :=
  log.filterMap writtenBy

/-- The value currently held by the cell at `a`, when `a` designates a live cell. -/
def cellValue (h : Heap) (a : Ptr) : Option Int :=
  match a with
  | none => none
  | some i =>
    match h[i]? with
    | some (Block.obj c) => some c.value
    | _ => none

/-- The pointer designates a live cell of the heap. -/
def isLive (h : Heap) (a : Ptr) : Prop := (cellValue h a).isSome = true

instance (h : Heap) (a : Ptr) : Decidable (isLive h a) := by
  unfold isLive; exact inferInstance

/-- The abstract cell of the specification: what a call returns when the
cell holds `cur` (`none` for the stores, which return nothing). -/
def specResult (cur : Int) : Call → Option Int
  | Call.load_acquire => some cur
  | Call.load_relaxed => some cur
  | Call.store_release _ => none
  | Call.store_relaxed _ => none
  | Call.fetch_add_relaxed _ => some cur

/-- The abstract cell of the specification: the value held after a call
when the cell held `cur` before. -/
def specNext (cur : Int) : Call → Int
  | Call.load_acquire => cur
  | Call.load_relaxed => cur
  | Call.store_release v => v
  | Call.store_relaxed v => v
  | Call.fetch_add_relaxed d => wrapInt64 (cur + d)

/-- The abstract cell of the specification: the log of a sequence of calls
started with the cell holding `cur`. -/
def specLog (cur : Int) : List Call → List (Call × Option Int)
  | [] => []
  | c :: cs => (c, specResult cur c) :: specLog (specNext cur c) cs

/-! ## Two threads: a view-based release/acquire memory

The handoff property is about two threads, so it needs a memory in which a
thread may not yet have seen a write of the other thread.  Here every
location keeps the history of its writes, numbered by timestamp, and every
thread has a view: for each location the timestamp of the latest write it
has seen.  A load may read any write of the location that is not older than
the view of the loading thread; which one is an input (`t`).  A message of the
atomic cell carries the view published with it.  What the `memory_order` tag
of the source decides is exactly this: a release store publishes the view of
the writer, a relaxed store publishes nothing but itself; an acquire load
adds the view of the message it read to the view of the reader, a relaxed
load does not.  The locations are the atomic cell and one plain variable `x`
of the caller. -/

namespace Threads

/-- The view of a thread, or the view carried by a message: for the atomic
cell and for the plain variable `x`, the timestamp of the latest write seen. -/
structure View where
  cell : Nat
  x : Nat
  deriving DecidableEq, Repr

/-- The least view that has seen everything either view has seen. -/
def View.join (a b : View) : View := ⟨max a.cell b.cell, max a.x b.x⟩

/-- One write to the atomic cell: the value and the view published with it. -/
structure Msg where
  val : Int
  view : View
  deriving DecidableEq, Repr

/-- The shared memory: the writes to the atomic cell `a->value` and the
writes to the plain variable `x`, oldest first; the position of a write in
its list is its timestamp, and position 0 holds the starting value. -/
structure Mem where
  cell : List Msg
  x : List Int
  deriving DecidableEq, Repr

/-- The orders of `<stdatomic.h>` under which a store is a release operation. -/
def isRelease : memory_order → Bool
  | memory_order.memory_order_release => true
  | memory_order.memory_order_acq_rel => true
  | memory_order.memory_order_seq_cst => true
  | _ => false

/-- The orders of `<stdatomic.h>` under which a load is an acquire operation
(the dependency ordering of `memory_order_consume` is not counted). -/
def isAcquire : memory_order → Bool
  | memory_order.memory_order_acquire => true
  | memory_order.memory_order_acq_rel => true
  | memory_order.memory_order_seq_cst => true
  | _ => false

/-- The generic `atomic_store_explicit(&a->value, v, order)` by a thread
whose view is `tv`: the write gets the next timestamp of the cell (there is
one writer), the thread has then seen it, and the message carries the view of
the thread when `order` is a release order, and only its own timestamp
otherwise. -/
def atomic_store_explicit (m : Mem) (tv : View) (v : Int) (order : memory_order) :
    Mem × View :=
  let t := m.cell.length
  let tv1 : View := ⟨t, tv.x⟩
  let mv : View := if isRelease order then tv1 else ⟨t, 0⟩
  (⟨m.cell ++ [⟨v, mv⟩], m.x⟩, tv1)

/-- The generic `atomic_load_explicit(&a->value, order)` by a thread whose
view is `tv`, reading the write with timestamp `t`: allowed when that write
exists and is not older than what the thread has seen of the cell; returns
its value; the thread has then seen that write and, when `order` is an
acquire order, everything the message carries. -/
def atomic_load_explicit (m : Mem) (tv : View) (t : Nat) (order : memory_order) :
    Option (Int × View) :=
  if tv.cell ≤ t then
    match m.cell[t]? with
    | some msg =>
      some (msg.val, if isAcquire order then View.join ⟨t, tv.x⟩ msg.view else ⟨t, tv.x⟩)
    | none => none
  else none

/-- The plain assignment `x = v` by a thread whose view is `tv`. -/
def plain_store (m : Mem) (tv : View) (v : Int) : Mem × View :=
  (⟨m.cell, m.x ++ [v]⟩, ⟨tv.cell, m.x.length⟩)

/-- A plain read of `x` by a thread whose view is `tv`, reading the write
with timestamp `t`: allowed when that write exists and is not older than
what the thread has seen of `x`. -/
def plain_load (m : Mem) (tv : View) (t : Nat) : Option Int :=
  if tv.x ≤ t then m.x[t]? else none

/-- `int64_t spsc_load_acquire_i64(spsc_atomic_i64* a)`, on the view-based memory. -/
def spsc_load_acquire_i64 (m : Mem) (tv : View) (t : Nat) : Option (Int × View) :=
  atomic_load_explicit m tv t memory_order.memory_order_acquire

/-- `int64_t spsc_load_relaxed_i64(spsc_atomic_i64* a)`, on the view-based memory. -/
def spsc_load_relaxed_i64 (m : Mem) (tv : View) (t : Nat) : Option (Int × View) :=
  atomic_load_explicit m tv t memory_order.memory_order_relaxed

/-- `void spsc_store_release_i64(spsc_atomic_i64* a, int64_t v)`, on the
view-based memory. -/
def spsc_store_release_i64 (m : Mem) (tv : View) (v : Int) : Mem × View :=
  atomic_store_explicit m tv v memory_order.memory_order_release

/-- `void spsc_store_relaxed_i64(spsc_atomic_i64* a, int64_t v)`, on the
view-based memory. -/
def spsc_store_relaxed_i64 (m : Mem) (tv : View) (v : Int) : Mem × View :=
  atomic_store_explicit m tv v memory_order.memory_order_relaxed

/-- The two threads of the handoff scenario of the specification.  The writer
runs `x = 5; store(cell, 1)`, the reader runs
`r1 = load(cell); if (r1 == 1) r2 = x`.  A configuration is the memory and,
for each thread, its program counter and its view, with the two registers of
the reader (`none` while not assigned). -/
structure Config where
  mem : Mem
  wpc : Nat
  wview : View
  rpc : Nat
  rview : View
  r1 : Option Int
  r2 : Option Int
  deriving DecidableEq, Repr

/-- The configuration before either thread has run: the cell holds the value
given to `spsc_atomic_i64_create`, `x` holds `x0`, neither write carries
anything, and both threads have seen just these. -/
def Config.start (initial x0 : Int) : Config :=
  { mem := ⟨[⟨initial, ⟨0, 0⟩⟩], [x0]⟩, wpc := 0, wview := ⟨0, 0⟩,
    rpc := 0, rview := ⟨0, 0⟩, r1 := none, r2 := none }

/-- One scheduling decision: the writer runs its next statement, or the
reader runs its next statement and its load reads the write with timestamp `t`. -/
inductive Move
  | writer
  | reader (t : Nat)
  deriving DecidableEq, Repr

/-- The next statement of the writer `x = 5; store(cell, 1)`, where `store`
is the store function of the source the writer calls. -/
def writerStep (store : Mem → View → Int → Mem × View) (c : Config) : Option Config :=
  match c.wpc with
  | 0 =>
    some { c with mem := (plain_store c.mem c.wview 5).1,
                  wview := (plain_store c.mem c.wview 5).2, wpc := 1 }
  | 1 =>
    some { c with mem := (store c.mem c.wview 1).1,
                  wview := (store c.mem c.wview 1).2, wpc := 2 }
  | _ => none

/-- The next statement of the reader `r1 = load(cell); if (r1 == 1) r2 = x`,
where `load` is the load function of the source the reader calls and `t`
the timestamp of the write its load reads. -/
def readerStep (load : Mem → View → Nat → Option (Int × View)) (c : Config) (t : Nat) :
    Option Config :=
  match c.rpc with
  | 0 =>
    match load c.mem c.rview t with
    | some (v, tv) => some { c with rview := tv, r1 := some v, rpc := if v = 1 then 1 else 2 }
    | none => none
  | 1 =>
    match plain_load c.mem c.rview t with
    | some v => some { c with r2 := some v, rpc := 2 }
    | none => none
  | _ => none

/-- One step of the two-thread program under a scheduling decision; `none`
when the chosen thread has finished or its load may not read that write. -/
def step (store : Mem → View → Int → Mem × View)
    (load : Mem → View → Nat → Option (Int × View)) (c : Config) : Move → Option Config
  | Move.writer => writerStep store c
  | Move.reader t => readerStep load c t

/-- An interleaving of the two threads: the scheduling decisions in order. -/
def exec (store : Mem → View → Int → Mem × View)
    (load : Mem → View → Nat → Option (Int × View)) : Config → List Move → Option Config
  | c, [] => some c
  | c, mv :: mvs =>
    match step store load c mv with
    | some c1 => exec store load c1 mvs
    | none => none

end Threads

/-! ## Arithmetic of the wraparound -/

theorem TWO64_eq : TWO64 = 2 ^ 64 := by
  unfold TWO64; norm_num

theorem INT64_MAX_eq : INT64_MAX = 2 ^ 63 - 1 := by
  unfold INT64_MAX; norm_num

theorem INT64_MIN_eq : INT64_MIN = -(2 ^ 63) := by
  unfold INT64_MIN; norm_num

theorem wrappingAdd_eq_wrapInt64 (x y : Int) : wrappingAdd x y = wrapInt64 (x + y) := by
  unfold wrappingAdd wrapInt64 toBits
  rw [← Int.add_emod]

theorem isInt64_wrapInt64 (x : Int) : isInt64 (wrapInt64 x) := by
  unfold isInt64 wrapInt64 ofBits INT64_MIN INT64_MAX TWO64
  split <;> omega

theorem wrapInt64_of_isInt64 {x : Int} (hx : isInt64 x) : wrapInt64 x = x := by
  unfold isInt64 INT64_MIN INT64_MAX at hx
  unfold wrapInt64 ofBits INT64_MAX TWO64
  split <;> omega

theorem wrapInt64_emod (x : Int) : wrapInt64 x % TWO64 = x % TWO64 := by
  unfold wrapInt64 ofBits INT64_MAX TWO64
  split <;> omega

theorem wrapInt64_congr {x y : Int} (hxy : x % TWO64 = y % TWO64) :
    wrapInt64 x = wrapInt64 y := by
  unfold wrapInt64
  rw [hxy]

theorem wrapInt64_wrap_add (x y : Int) : wrapInt64 (wrapInt64 x + y) = wrapInt64 (x + y) := by
  apply wrapInt64_congr
  rw [Int.add_emod, wrapInt64_emod, ← Int.add_emod]

theorem wrapInt64_overflow {x : Int} (hlo : INT64_MAX < x) (hhi : x ≤ INT64_MAX + TWO64) :
    wrapInt64 x = x - TWO64 := by
  unfold INT64_MAX TWO64 at *
  unfold wrapInt64 ofBits INT64_MAX TWO64
  split <;> omega

theorem wrapInt64_underflow {x : Int} (hhi : x < INT64_MIN) (hlo : INT64_MIN - TWO64 ≤ x) :
    wrapInt64 x = x + TWO64 := by
  unfold INT64_MIN TWO64 at *
  unfold wrapInt64 ofBits INT64_MAX TWO64
  split <;> omega

/-! ## One operation on a live cell -/

theorem cellValue_some {h : Heap} {a : Ptr} {v : Int} (hc : cellValue h a = some v) :
    ∃ i, a = some i ∧ h[i]? = some (Block.obj ⟨v⟩) := by
  cases a with
  | none => simp [cellValue] at hc
  | some i =>
    refine ⟨i, rfl, ?_⟩
    unfold cellValue at hc
    cases hb : h[i]? with
    | none => simp [hb] at hc
    | some b =>
      cases b with
      | raw => simp [hb] at hc
      | freed => simp [hb] at hc
      | obj c =>
        cases c with
        | mk w =>
          simp [hb] at hc
          simp [hc]

theorem cellValue_of_get {h : Heap} {i : Nat} {v : Int}
    (hb : h[i]? = some (Block.obj ⟨v⟩)) : cellValue h (some i) = some v := by
  simp [cellValue, hb]

theorem lt_length_of_get {h : Heap} {i : Nat} {b : Block} (hb : h[i]? = some b) :
    i < h.length := by
  by_contra hlt
  have hnone : h[i]? = none := List.getElem?_eq_none (Nat.le_of_not_lt hlt)
  rw [hnone] at hb
  cases hb

theorem get_set_self {h : Heap} {i : Nat} (b : Block) (hi : i < h.length) :
    (h.set i b)[i]? = some b := by
  simp [List.getElem?_set, hi]

theorem cellValue_set {h : Heap} {i : Nat} (v : Int) (hi : i < h.length) :
    cellValue (h.set i (Block.obj ⟨v⟩)) (some i) = some v :=
  cellValue_of_get (get_set_self _ hi)

theorem load_acquire_live {h : Heap} {a : Ptr} {v : Int} (hc : cellValue h a = some v) :
    spsc_load_acquire_i64 h a = some (v, h) := by
  obtain ⟨i, rfl, hb⟩ := cellValue_some hc
  simp [spsc_load_acquire_i64, atomic_load_explicit, hb]

theorem load_relaxed_live {h : Heap} {a : Ptr} {v : Int} (hc : cellValue h a = some v) :
    spsc_load_relaxed_i64 h a = some (v, h) := by
  obtain ⟨i, rfl, hb⟩ := cellValue_some hc
  simp [spsc_load_relaxed_i64, atomic_load_explicit, hb]

theorem store_release_live {h : Heap} {i : Nat} {u : Int} (v : Int)
    (hb : h[i]? = some (Block.obj ⟨u⟩)) :
    spsc_store_release_i64 h (some i) v = some (h.set i (Block.obj ⟨v⟩)) := by
  simp [spsc_store_release_i64, atomic_store_explicit, hb]

theorem store_relaxed_live {h : Heap} {i : Nat} {u : Int} (v : Int)
    (hb : h[i]? = some (Block.obj ⟨u⟩)) :
    spsc_store_relaxed_i64 h (some i) v = some (h.set i (Block.obj ⟨v⟩)) := by
  simp [spsc_store_relaxed_i64, atomic_store_explicit, hb]

theorem fetch_add_live {h : Heap} {i : Nat} {old : Int} (delta : Int)
    (hb : h[i]? = some (Block.obj ⟨old⟩)) :
    spsc_fetch_add_relaxed_i64 h (some i) delta
      = some (old, h.set i (Block.obj ⟨wrapInt64 (old + delta)⟩)) := by
  simp [spsc_fetch_add_relaxed_i64, atomic_fetch_add_explicit, hb, wrappingAdd_eq_wrapInt64]

theorem create_success (h : Heap) (initial : Int) :
    spsc_atomic_i64_create true h initial
      = (some h.length, h ++ [Block.obj ⟨initial⟩]) := by
  simp [spsc_atomic_i64_create, malloc, atomic_init]

theorem create_failure (h : Heap) (initial : Int) :
    spsc_atomic_i64_create false h initial = (none, h) := by
  simp [spsc_atomic_i64_create, malloc]

theorem cellValue_create (h : Heap) (initial : Int) :
    cellValue (spsc_atomic_i64_create true h initial).2
      (spsc_atomic_i64_create true h initial).1 = some initial := by
  rw [create_success]
  simp [cellValue]

/-! ## Sequences of operations on a live cell -/

theorem invoke_live {h : Heap} {a : Ptr} {cur : Int} (hc : cellValue h a = some cur)
    (c : Call) :
    ∃ h', c.invoke h a = some (specResult cur c, h')
      ∧ cellValue h' a = some (specNext cur c) := by
  obtain ⟨i, rfl, hb⟩ := cellValue_some hc
  have hi : i < h.length := lt_length_of_get hb
  cases c with
  | load_acquire =>
    exact ⟨h, by simp [Call.invoke, load_acquire_live hc, specResult], by simpa [specNext] using hc⟩
  | load_relaxed =>
    exact ⟨h, by simp [Call.invoke, load_relaxed_live hc, specResult], by simpa [specNext] using hc⟩
  | store_release v =>
    exact ⟨h.set i (Block.obj ⟨v⟩),
      by simp [Call.invoke, store_release_live v hb, specResult],
      by simpa [specNext] using cellValue_set v hi⟩
  | store_relaxed v =>
    exact ⟨h.set i (Block.obj ⟨v⟩),
      by simp [Call.invoke, store_relaxed_live v hb, specResult],
      by simpa [specNext] using cellValue_set v hi⟩
  | fetch_add_relaxed d =>
    exact ⟨h.set i (Block.obj ⟨wrapInt64 (cur + d)⟩),
      by simp [Call.invoke, fetch_add_live d hb, specResult],
      by simpa [specNext] using cellValue_set (wrapInt64 (cur + d)) hi⟩

theorem run_live {a : Ptr} (cs : List Call) :
    ∀ {cur : Int} {h : Heap}, cellValue h a = some cur →
      ∃ h', run h a cs = some (specLog cur cs, h')
        ∧ cellValue h' a = some (cs.foldl specNext cur) := by
  induction cs with
  | nil =>
    intro cur h hc
    exact ⟨h, by simp [run, specLog], by simpa using hc⟩
  | cons c cs ih =>
    intro cur h hc
    obtain ⟨h1, hinv, hc1⟩ := invoke_live hc c
    obtain ⟨h2, hrun, hc2⟩ := ih hc1
    exact ⟨h2, by simp [run, hinv, hrun, specLog], by simpa using hc2⟩

theorem foldl_fetch_add (ds : List Int) :
    ∀ cur : Int, isInt64 cur →
      (ds.map Call.fetch_add_relaxed).foldl specNext cur = wrapInt64 (cur + ds.sum) := by
  induction ds with
  | nil =>
    intro cur hcur
    simp [wrapInt64_of_isInt64 hcur]
  | cons d ds ih =>
    intro cur _
    simp only [List.map_cons, List.foldl_cons, List.sum_cons, specNext]
    rw [ih _ (isInt64_wrapInt64 _), wrapInt64_wrap_add, add_assoc]

theorem returned_specLog_fetch_add (d : Int) (n : Nat) :
    ∀ cur : Int, isInt64 cur →
      returned (specLog cur (List.replicate n (Call.fetch_add_relaxed d)))
        = (List.range n).map (fun (k : Nat) => wrapInt64 (cur + (k : Int) * d)) := by
  induction n with
  | zero =>
    intro cur _
    simp [returned, specLog]
  | succ n ih =>
    intro cur hcur
    have htail := ih (wrapInt64 (cur + d)) (isInt64_wrapInt64 _)
    simp only [returned] at htail
    simp only [List.replicate_succ, specLog, specResult, specNext, returned,
      List.filterMap_cons, List.range_succ_eq_map, List.map_cons, List.map_map]
    rw [htail]
    refine congrArg₂ List.cons ?_ ?_
    · simp [wrapInt64_of_isInt64 hcur]
    · apply List.map_congr_left
      intro k _
      simp only [Function.comp_apply]
      rw [wrapInt64_wrap_add]
      congr 1
      push_cast
      ring

theorem invoke_freed {h : Heap} {i : Nat} (hb : h[i]? = some Block.freed) (c : Call) :
    c.invoke h (some i) = none := by
  cases c <;>
    simp [Call.invoke, spsc_load_acquire_i64, spsc_load_relaxed_i64, spsc_store_release_i64,
      spsc_store_relaxed_i64, spsc_fetch_add_relaxed_i64, atomic_load_explicit,
      atomic_store_explicit, atomic_fetch_add_explicit, hb]

theorem get_set_other {h : Heap} {i j : Nat} (b : Block) (hij : j ≠ i) :
    (h.set i b)[j]? = h[j]? := by
  simp [List.getElem?_set, Ne.symm hij]

theorem run_fetch_add_repeat (h : Heap) (d : Int) (n : Nat) :
    ∃ log h', run (spsc_atomic_i64_create true h 0).2 (spsc_atomic_i64_create true h 0).1
          (List.replicate n (Call.fetch_add_relaxed d)) = some (log, h')
      ∧ returned log = (List.range n).map (fun (k : Nat) => wrapInt64 ((k : Int) * d)) := by
  obtain ⟨h', hrun, _⟩ :=
    run_live (List.replicate n (Call.fetch_add_relaxed d)) (cellValue_create h 0)
  refine ⟨_, h', hrun, ?_⟩
  rw [returned_specLog_fetch_add d n 0 (by decide)]
  apply List.map_congr_left
  intro k _
  simp

theorem returns_differ_of_wrap (h : Heap) (n m : Nat) (hm : m < n)
    (hw : wrapInt64 ((m : Int) * 1) ≠ (m : Int)) :
    ∃ log h', run (spsc_atomic_i64_create true h 0).2 (spsc_atomic_i64_create true h 0).1
          (List.replicate n (Call.fetch_add_relaxed 1)) = some (log, h')
      ∧ (returned log)[m]? = some (wrapInt64 ((m : Int) * 1))
      ∧ returned log ≠ (List.range n).map (fun (i : Nat) => (i : Int)) := by
  obtain ⟨log, h', hrun, hret⟩ := run_fetch_add_repeat h 1 n
  have hat : (returned log)[m]? = some (wrapInt64 ((m : Int) * 1)) := by
    rw [hret]
    simp only [List.getElem?_map, List.getElem?_range hm, Option.map_some']
  refine ⟨log, h', hrun, hat, ?_⟩
  intro heq
  rw [heq] at hat
  simp only [List.getElem?_map, List.getElem?_range hm, Option.map_some'] at hat
  exact hw (Option.some.inj hat).symm

theorem written_cons (e : Call × Option Int) (log : List (Call × Option Int)) (r : Int) :
    r ∈ written (e :: log) ↔ writtenBy e = some r ∨ r ∈ written log := by
  unfold written
  cases he : writtenBy e with
  | none => simp [List.filterMap_cons, he]
  | some w =>
    simp only [List.filterMap_cons, he, List.mem_cons, Option.some.injEq]
    constructor
    · rintro (rfl | hmem)
      · exact Or.inl rfl
      · exact Or.inr hmem
    · rintro (rfl | hmem)
      · exact Or.inl rfl
      · exact Or.inr hmem

theorem specLog_provenance (cs : List Call) :
    ∀ (cur : Int) (k : Nat) (c : Call) (r : Int),
      (specLog cur cs)[k]? = some (c, some r) → c.isLoad = true →
        r = cur ∨ r ∈ written ((specLog cur cs).take k) := by
  induction cs with
  | nil =>
    intro cur k c r hk _
    simp [specLog] at hk
  | cons c0 cs ih =>
    intro cur k c r hk hload
    cases k with
    | zero =>
      simp only [specLog, List.getElem?_cons_zero, Option.some.injEq, Prod.mk.injEq] at hk
      obtain ⟨rfl, hres⟩ := hk
      cases c0 <;> simp_all [specResult, Call.isLoad]
    | succ k =>
      simp only [specLog, List.getElem?_cons_succ] at hk
      have hrec := ih (specNext cur c0) k c r hk hload
      simp only [specLog, List.take_succ_cons, written_cons]
      rcases hrec with hcur | hmem
      · cases c0 with
        | load_acquire => exact Or.inl (by simpa [specNext] using hcur)
        | load_relaxed => exact Or.inl (by simpa [specNext] using hcur)
        | store_release v =>
          exact Or.inr (Or.inl (by simpa [specNext, specResult, writtenBy] using hcur.symm))
        | store_relaxed v =>
          exact Or.inr (Or.inl (by simpa [specNext, specResult, writtenBy] using hcur.symm))
        | fetch_add_relaxed d =>
          exact Or.inr (Or.inl (by simpa [specNext, specResult, writtenBy] using hcur.symm))
      · exact Or.inr (Or.inr hmem)

theorem specLog_length (cs : List Call) : ∀ cur : Int, (specLog cur cs).length = cs.length := by
  induction cs with
  | nil => intro cur; rfl
  | cons c cs ih => intro cur; simp [specLog, ih]

theorem run_loads {h : Heap} {a : Ptr} {v : Int} (hc : cellValue h a = some v)
    (cs : List Call) (hcs : ∀ c ∈ cs, c.isLoad = true) :
    ∃ log, run h a cs = some (log, h) ∧ returned log = List.replicate cs.length v := by
  induction cs with
  | nil => exact ⟨[], by simp [run], by simp [returned]⟩
  | cons c cs ih =>
    obtain ⟨log, hrun, hret⟩ := ih (fun c hc => hcs c (List.mem_cons_of_mem _ hc))
    have hload : c.isLoad = true := hcs c (List.mem_cons_self _ _)
    have hinv : c.invoke h a = some (some v, h) := by
      cases c with
      | load_acquire => simp [Call.invoke, load_acquire_live hc]
      | load_relaxed => simp [Call.invoke, load_relaxed_live hc]
      | store_release w => simp [Call.isLoad] at hload
      | store_relaxed w => simp [Call.isLoad] at hload
      | fetch_add_relaxed d => simp [Call.isLoad] at hload
    refine ⟨(c, some v) :: log, by simp [run, hinv, hrun], ?_⟩
    simp only [returned] at hret
    simp [returned, List.replicate_succ, hret]

/-! ## The handoff between two threads -/

namespace Threads

/-- With `spsc_store_relaxed_i64` in place of the release store the handoff
is lost: the reader can observe `1` and then read the old `x`. -/
theorem relaxed_store_loses_handoff :
    (exec spsc_store_relaxed_i64 spsc_load_acquire_i64 (Config.start 0 0)
        [Move.writer, Move.writer, Move.reader 1, Move.reader 0]).map
      (fun c => (c.r1, c.rpc, c.r2)) = some (some 1, 2, some 0) := by
  decide

/-- With `spsc_load_relaxed_i64` in place of the acquire load the handoff is
lost: the reader can observe `1` and then read the old `x`. -/
theorem relaxed_load_loses_handoff :
    (exec spsc_store_release_i64 spsc_load_relaxed_i64 (Config.start 0 0)
        [Move.writer, Move.writer, Move.reader 1, Move.reader 0]).map
      (fun c => (c.r1, c.rpc, c.r2)) = some (some 1, 2, some 0) := by
  decide

/-- Under release and acquire the reader that has observed `1` may not read
the old `x`: that interleaving does not exist. -/
theorem stale_read_not_allowed :
    exec spsc_store_release_i64 spsc_load_acquire_i64 (Config.start 0 0)
      [Move.writer, Move.writer, Move.reader 1, Move.reader 0] = none := by
  decide

/-- A cell that already holds `1` before the writer has stored lets
the reader observe that `1`, which is not the one the writer publishes. -/
theorem flag_already_set :
    (exec spsc_store_release_i64 spsc_load_acquire_i64 (Config.start 1 0)
        [Move.reader 0, Move.reader 0]).map
      (fun c => (c.r1, c.rpc, c.r2)) = some (some 1, 2, some 0) := by
  decide

end Threads

/-! ## The claims -/

/-- C1: on a live cell holding `old`, `spsc_fetch_add_relaxed_i64` with any
`delta` returns `old`, and the cell then holds `(old + delta) mod 2^64` read as
a signed 64-bit number, which is always an `int64_t`: overflow wraps, the call
does not fail.  For `int64_t` operands that value is `old + delta` when it is
representable, `old + delta - 2^64` past `INT64_MAX` and `old + delta + 2^64`
below `INT64_MIN`. -/
theorem fetch_add_returns_old_and_wraps (h : Heap) (a : Ptr) (old delta : Int)
    (hc : cellValue h a = some old) :
    ∃ h', spsc_fetch_add_relaxed_i64 h a delta = some (old, h')
      ∧ cellValue h' a = some (ofBits ((old + delta) % TWO64))
      ∧ isInt64 (ofBits ((old + delta) % TWO64))
      ∧ (isInt64 old → isInt64 delta →
          ofBits ((old + delta) % TWO64)
            = if INT64_MAX < old + delta then old + delta - TWO64
              else if old + delta < INT64_MIN then old + delta + TWO64
              else old + delta) := by
  obtain ⟨i, rfl, hb⟩ := cellValue_some hc
  refine ⟨h.set i (Block.obj ⟨wrapInt64 (old + delta)⟩), fetch_add_live delta hb,
    cellValue_set _ (lt_length_of_get hb), isInt64_wrapInt64 _, ?_⟩
  intro ho hd
  have hlo : INT64_MIN + INT64_MIN ≤ old + delta := Int.add_le_add ho.1 hd.1
  have hhi : old + delta ≤ INT64_MAX + INT64_MAX := Int.add_le_add ho.2 hd.2
  by_cases hover : INT64_MAX < old + delta
  · rw [if_pos hover]
    exact wrapInt64_overflow hover (le_trans hhi (by decide))
  · rw [if_neg hover]
    by_cases hunder : old + delta < INT64_MIN
    · rw [if_pos hunder]
      exact wrapInt64_underflow hunder (le_trans (by decide) hlo)
    · rw [if_neg hunder]
      exact wrapInt64_of_isInt64 ⟨not_lt.mp hunder, not_lt.mp hover⟩

/-- Witness of C1 at the overflow `INT64_MAX + 1`. -/
theorem fetch_add_returns_old_and_wraps_witness :
    cellValue [Block.obj ⟨INT64_MAX⟩] (some 0) = some INT64_MAX
      ∧ ∃ h', spsc_fetch_add_relaxed_i64 [Block.obj ⟨INT64_MAX⟩] (some 0) 1
            = some (INT64_MAX, h')
          ∧ cellValue h' (some 0) = some (ofBits ((INT64_MAX + 1) % TWO64))
          ∧ isInt64 (ofBits ((INT64_MAX + 1) % TWO64))
          ∧ (isInt64 INT64_MAX → isInt64 1 →
              ofBits ((INT64_MAX + 1) % TWO64)
                = if INT64_MAX < INT64_MAX + 1 then INT64_MAX + 1 - TWO64
                  else if INT64_MAX + 1 < INT64_MIN then INT64_MAX + 1 + TWO64
                  else INT64_MAX + 1) :=
  ⟨by decide,
    fetch_add_returns_old_and_wraps [Block.obj ⟨INT64_MAX⟩] (some 0) INT64_MAX 1 (by decide)⟩

/-- C2: create a cell with the `int64_t` value `v0`, apply
`spsc_fetch_add_relaxed_i64` with the deltas `ds` in order (possibly none):
all calls return, and a load afterwards, relaxed or acquire, returns
`v0 + sum ds` reduced modulo `2^64` and read as a signed 64-bit number,
wherever the intermediate additions overflowed. -/
theorem fetch_add_sequence_sum (h : Heap) (v0 : Int) (ds : List Int) (hv : isInt64 v0) :
    ∃ log h', run (spsc_atomic_i64_create true h v0).2 (spsc_atomic_i64_create true h v0).1
          (ds.map Call.fetch_add_relaxed) = some (log, h')
      ∧ spsc_load_relaxed_i64 h' (spsc_atomic_i64_create true h v0).1
          = some (ofBits ((v0 + ds.sum) % TWO64), h')
      ∧ spsc_load_acquire_i64 h' (spsc_atomic_i64_create true h v0).1
          = some (ofBits ((v0 + ds.sum) % TWO64), h') := by
  obtain ⟨h', hrun, hc⟩ := run_live (ds.map Call.fetch_add_relaxed) (cellValue_create h v0)
  rw [foldl_fetch_add ds v0 hv] at hc
  exact ⟨_, h', hrun, load_relaxed_live hc, load_acquire_live hc⟩

/-- Witness of C2, the scenario of the specification: `create(0)`, five
times `fetch_add_relaxed(1)`, then both loads return `5`. -/
theorem fetch_add_sequence_sum_witness :
    isInt64 0
      ∧ ∃ log h', run (spsc_atomic_i64_create true [] 0).2 (spsc_atomic_i64_create true [] 0).1
            ([1, 1, 1, 1, 1].map Call.fetch_add_relaxed) = some (log, h')
          ∧ spsc_load_relaxed_i64 h' (spsc_atomic_i64_create true [] 0).1 = some (5, h')
          ∧ spsc_load_acquire_i64 h' (spsc_atomic_i64_create true [] 0).1 = some (5, h') :=
  ⟨by decide, fetch_add_sequence_sum [] 0 [1, 1, 1, 1, 1] (by decide)⟩

/-- C3, as stated, fails: start from `create(0)` and call
`spsc_fetch_add_relaxed_i64(cell, 1)` `2^63 + 1` times; all calls return, the
call number `2^63` (counting from 0) returns `INT64_MIN`, the counter having
wrapped, and so the list of returned values is not `0, 1, ..., 2^63`. -/
theorem fetch_add_one_returns_counterexample :
    ∃ log h', run (spsc_atomic_i64_create true [] 0).2 (spsc_atomic_i64_create true [] 0).1
          (List.replicate 9223372036854775809 (Call.fetch_add_relaxed 1)) = some (log, h')
      ∧ (returned log)[9223372036854775808]? = some INT64_MIN
      ∧ returned log ≠ (List.range 9223372036854775809).map (fun (i : Nat) => (i : Int)) := by
  obtain ⟨log, h', hrun, hat, hne⟩ :=
    returns_differ_of_wrap [] 9223372036854775809 9223372036854775808 (by norm_num)
      (by unfold wrapInt64 ofBits INT64_MAX TWO64; norm_num)
  refine ⟨log, h', hrun, ?_, hne⟩
  rw [hat]
  unfold wrapInt64 ofBits INT64_MAX INT64_MIN TWO64
  norm_num

/-- C3, amended: for every `n` up to `2^63`, start from `create(0)` and call
`spsc_fetch_add_relaxed_i64(cell, 1)` `n` times; all calls return and the
list of returned values is exactly `0, 1, ..., n-1`. -/
theorem fetch_add_one_returns (h : Heap) (n : Nat) (hn : n ≤ 2 ^ 63) :
    ∃ log h', run (spsc_atomic_i64_create true h 0).2 (spsc_atomic_i64_create true h 0).1
          (List.replicate n (Call.fetch_add_relaxed 1)) = some (log, h')
      ∧ returned log = (List.range n).map (fun (i : Nat) => (i : Int)) := by
  obtain ⟨log, h', hrun, hret⟩ := run_fetch_add_repeat h 1 n
  refine ⟨log, h', hrun, ?_⟩
  rw [hret]
  apply List.map_congr_left
  intro k hk
  have hkn : k < n := List.mem_range.mp hk
  show wrapInt64 ((k : Int) * 1) = (k : Int)
  rw [mul_one]
  apply wrapInt64_of_isInt64
  unfold isInt64 INT64_MIN INT64_MAX
  constructor <;> omega

/-- Witness of the amended C3 at `n = 3`. -/
theorem fetch_add_one_returns_witness :
    3 ≤ 2 ^ 63
      ∧ ∃ log h', run (spsc_atomic_i64_create true [] 0).2 (spsc_atomic_i64_create true [] 0).1
            (List.replicate 3 (Call.fetch_add_relaxed 1)) = some (log, h')
          ∧ returned log = (List.range 3).map (fun (i : Nat) => (i : Int)) :=
  ⟨by norm_num, fetch_add_one_returns [] 3 (by norm_num)⟩

/-- C4: when `spsc_atomic_i64_create(initial)` succeeds, the handle is not
null and a load that follows immediately, relaxed or acquire, returns
`initial`. -/
theorem create_then_load (h : Heap) (initial : Int) :
    (spsc_atomic_i64_create true h initial).1 ≠ none
      ∧ spsc_load_relaxed_i64 (spsc_atomic_i64_create true h initial).2
          (spsc_atomic_i64_create true h initial).1
          = some (initial, (spsc_atomic_i64_create true h initial).2)
      ∧ spsc_load_acquire_i64 (spsc_atomic_i64_create true h initial).2
          (spsc_atomic_i64_create true h initial).1
          = some (initial, (spsc_atomic_i64_create true h initial).2) :=
  ⟨by simp [create_success], load_relaxed_live (cellValue_create h initial),
    load_acquire_live (cellValue_create h initial)⟩

/-- C5: on a live cell holding any value `u`, `spsc_store_release_i64(cell, v)`
and `spsc_store_relaxed_i64(cell, v)` both return and leave the same heap, in
which a load, acquire or relaxed, returns `v`; the heap after the store is the
same whatever value `w` the cell held before. -/
theorem store_then_load (h : Heap) (i : Nat) (u v : Int)
    (hb : h[i]? = some (Block.obj ⟨u⟩)) :
    ∃ h', spsc_store_release_i64 h (some i) v = some h'
      ∧ spsc_store_relaxed_i64 h (some i) v = some h'
      ∧ spsc_load_acquire_i64 h' (some i) = some (v, h')
      ∧ spsc_load_relaxed_i64 h' (some i) = some (v, h')
      ∧ ∀ w : Int,
          spsc_store_release_i64 (h.set i (Block.obj ⟨w⟩)) (some i) v = some h'
            ∧ spsc_store_relaxed_i64 (h.set i (Block.obj ⟨w⟩)) (some i) v = some h' := by
  have hi : i < h.length := lt_length_of_get hb
  refine ⟨h.set i (Block.obj ⟨v⟩), store_release_live v hb, store_relaxed_live v hb,
    load_acquire_live (cellValue_set v hi), load_relaxed_live (cellValue_set v hi), ?_⟩
  intro w
  have hw : (h.set i (Block.obj ⟨w⟩))[i]? = some (Block.obj ⟨w⟩) := get_set_self _ hi
  constructor
  · rw [store_release_live v hw, List.set_set]
  · rw [store_relaxed_live v hw, List.set_set]

/-- Witness of C5: a cell holding `7` is overwritten with `-3`. -/
theorem store_then_load_witness :
    [Block.freed, Block.obj ⟨7⟩][1]? = some (Block.obj ⟨7⟩)
      ∧ ∃ h', spsc_store_release_i64 [Block.freed, Block.obj ⟨7⟩] (some 1) (-3) = some h'
          ∧ spsc_store_relaxed_i64 [Block.freed, Block.obj ⟨7⟩] (some 1) (-3) = some h'
          ∧ spsc_load_acquire_i64 h' (some 1) = some (-3, h')
          ∧ spsc_load_relaxed_i64 h' (some 1) = some (-3, h')
          ∧ ∀ w : Int,
              spsc_store_release_i64 ([Block.freed, Block.obj ⟨7⟩].set 1 (Block.obj ⟨w⟩))
                  (some 1) (-3) = some h'
                ∧ spsc_store_relaxed_i64 ([Block.freed, Block.obj ⟨7⟩].set 1 (Block.obj ⟨w⟩))
                  (some 1) (-3) = some h' :=
  ⟨by decide, store_then_load [Block.freed, Block.obj ⟨7⟩] 1 7 (-3) (by decide)⟩

/-- C6: `spsc_atomic_i64_create(initial)` returns a null handle exactly when
`malloc` returns null; in that case the heap is the one before the call; when
`malloc` succeeds the handle is not null, designates a block that did not
exist before, that block is a live cell holding `initial`, and every block
that existed before is unchanged. -/
theorem create_null_iff_alloc_fails (avail : Bool) (h : Heap) (initial : Int) :
    ((spsc_atomic_i64_create avail h initial).1 = none ↔ (malloc avail h).1 = none)
      ∧ ((malloc avail h).1 = none ↔ avail = false)
      ∧ spsc_atomic_i64_create false h initial = (none, h)
      ∧ ∃ i, (spsc_atomic_i64_create true h initial).1 = some i
          ∧ h[i]? = none
          ∧ cellValue (spsc_atomic_i64_create true h initial).2 (some i) = some initial
          ∧ ∀ j, j < h.length → (spsc_atomic_i64_create true h initial).2[j]? = h[j]? := by
  refine ⟨?_, ?_, create_failure h initial, h.length, ?_, ?_, ?_, ?_⟩
  · cases avail <;> simp [create_success, create_failure, malloc]
  · cases avail <;> simp [malloc]
  · rw [create_success]
  · simp
  · have hc := cellValue_create h initial
    rw [create_success] at hc ⊢
    exact hc
  · intro j hj
    rw [create_success]
    simp [List.getElem?_append_left hj]

/-- C7: `spsc_atomic_i64_destroy(NULL)` returns and leaves the heap as it
was; on a live cell it returns, the block of the cell is freed as a whole,
the heap keeps its size and every other block, and from then on every
operation on the handle, a second destroy included, is undefined. -/
theorem destroy_null_noop_live_freed (h : Heap) :
    spsc_atomic_i64_destroy h none = some h
      ∧ ∀ (i : Nat) (v : Int), h[i]? = some (Block.obj ⟨v⟩) →
          ∃ h', spsc_atomic_i64_destroy h (some i) = some h'
            ∧ h'[i]? = some Block.freed
            ∧ h'.length = h.length
            ∧ (∀ j, j ≠ i → h'[j]? = h[j]?)
            ∧ (∀ c : Call, c.invoke h' (some i) = none)
            ∧ spsc_atomic_i64_destroy h' (some i) = none := by
  refine ⟨rfl, ?_⟩
  intro i v hb
  have hi : i < h.length := lt_length_of_get hb
  have hf : (h.set i Block.freed)[i]? = some Block.freed := get_set_self _ hi
  refine ⟨h.set i Block.freed, ?_, hf, by simp, ?_, ?_, ?_⟩
  · simp [spsc_atomic_i64_destroy, free, hb]
  · intro j hj
    exact get_set_other _ hj
  · intro c
    exact invoke_freed hf c
  · simp [spsc_atomic_i64_destroy, free, hf]

/-- Witness of C7: a heap of two live cells, the second one is destroyed. -/
theorem destroy_null_noop_live_freed_witness :
    [Block.obj ⟨1⟩, Block.obj ⟨2⟩][1]? = some (Block.obj ⟨2⟩)
      ∧ spsc_atomic_i64_destroy [Block.obj ⟨1⟩, Block.obj ⟨2⟩] none
          = some [Block.obj ⟨1⟩, Block.obj ⟨2⟩]
      ∧ ∃ h', spsc_atomic_i64_destroy [Block.obj ⟨1⟩, Block.obj ⟨2⟩] (some 1) = some h'
          ∧ h'[1]? = some Block.freed
          ∧ h'.length = [Block.obj ⟨1⟩, Block.obj ⟨2⟩].length
          ∧ (∀ j, j ≠ 1 → h'[j]? = [Block.obj ⟨1⟩, Block.obj ⟨2⟩][j]?)
          ∧ (∀ c : Call, c.invoke h' (some 1) = none)
          ∧ spsc_atomic_i64_destroy h' (some 1) = none :=
  ⟨by decide, (destroy_null_noop_live_freed [Block.obj ⟨1⟩, Block.obj ⟨2⟩]).1,
    (destroy_null_noop_live_freed [Block.obj ⟨1⟩, Block.obj ⟨2⟩]).2 1 2 (by decide)⟩

namespace Threads

end Threads

/-- C9: after `create(initial)`, every sequence of loads, stores and
fetch-adds on the cell returns, call by call, and the value returned by any
load is `initial`, or the argument of a store logged before it, or the
wrapped `old + delta` of a fetch-add logged before it. -/
theorem load_value_provenance (h : Heap) (initial : Int) (cs : List Call) :
    ∃ log h', run (spsc_atomic_i64_create true h initial).2
          (spsc_atomic_i64_create true h initial).1 cs = some (log, h')
      ∧ log.length = cs.length
      ∧ ∀ (k : Nat) (c : Call) (r : Int), log[k]? = some (c, some r) → c.isLoad = true →
          r = initial ∨ r ∈ written (log.take k) := by
  obtain ⟨h', hrun, _⟩ := run_live cs (cellValue_create h initial)
  exact ⟨specLog initial cs, h', hrun, specLog_length cs initial,
    specLog_provenance cs initial⟩

/-- C10: on a live cell holding `v`, `spsc_load_acquire_i64` and
`spsc_load_relaxed_i64` both return `v` and leave the heap as it was; any
sequence of loads of either kind returns, every one of them returns `v`, and
the heap at the end is the heap at the start. -/
theorem loads_read_only (h : Heap) (a : Ptr) (v : Int) (cs : List Call)
    (hc : cellValue h a = some v) (hcs : ∀ c ∈ cs, c.isLoad = true) :
    spsc_load_acquire_i64 h a = some (v, h)
      ∧ spsc_load_relaxed_i64 h a = some (v, h)
      ∧ ∃ log, run h a cs = some (log, h) ∧ returned log = List.replicate cs.length v :=
  ⟨load_acquire_live hc, load_relaxed_live hc, run_loads hc cs hcs⟩

/-- Witness of C10: three loads on a cell holding `42`. -/
theorem loads_read_only_witness :
    cellValue [Block.obj ⟨42⟩] (some 0) = some 42
      ∧ (∀ c ∈ [Call.load_acquire, Call.load_relaxed, Call.load_acquire], c.isLoad = true)
      ∧ spsc_load_acquire_i64 [Block.obj ⟨42⟩] (some 0) = some (42, [Block.obj ⟨42⟩])
      ∧ spsc_load_relaxed_i64 [Block.obj ⟨42⟩] (some 0) = some (42, [Block.obj ⟨42⟩])
      ∧ ∃ log, run [Block.obj ⟨42⟩] (some 0)
              [Call.load_acquire, Call.load_relaxed, Call.load_acquire]
            = some (log, [Block.obj ⟨42⟩])
          ∧ returned log
            = List.replicate [Call.load_acquire, Call.load_relaxed, Call.load_acquire].length 42 :=
  ⟨by decide, by decide,
    loads_read_only [Block.obj ⟨42⟩] (some 0) 42
      [Call.load_acquire, Call.load_relaxed, Call.load_acquire] (by decide) (by decide)⟩

end SPSCAtomic
